import Mathlib

/-!
Verification of the invoice-clearing wizard
(`account_invoice_clearing/wizards/account_invoice_clearing_wizard.py`).

Monetary amounts are modelled as `Int` in minor currency units: every amount
handled by the wizard is already rounded to the currency precision, and the
operations used (`+`, `-`, `min`, `max`) preserve that, so the currency
rounding service `round` is the identity and `float_is_zero` is exact
comparison with zero.
-/

namespace InvoiceClearing

/-- Embeds the relevant fields of an `account.move.line` record: its id, the
owning move's id and name, its own label, its account and its signed residual
amount. -/
structure MoveLine where
  id : Nat
  move_id : Nat
  move_name : String
  name : String
  account_id : Nat
  amount_residual : Int
deriving DecidableEq

/-- Embeds an `account.invoice.clearing.lines.wizard` record: the underlying
move line (whose `amount_residual` is the related residual field), and the
`amount_to_clear` chosen by the planner or the user. -/
structure ClearLine where
  move_line : MoveLine
  amount_to_clear : Int
deriving DecidableEq

/-- Embeds the constant per-run data of the wizard record that is copied into
the produced lines and moves. The field `move_line_pfx` embeds the
`move_line_prefix` field of the wizard. -/
structure Wizard where
  move_name : String
  move_line_pfx : String
  commercial_partner_id : Nat
  company_currency_id : Nat
  journal_id : Nat
  date : String
deriving DecidableEq

/-- Embeds one entry of the `line_ids` list of the produced move dict (the
payload of the `(0, 0, vals)` command built in `_get_move_dict_vals`). -/
structure LineVals where
  name : String
  debit : Int
  credit : Int
  account_id : Nat
  partner_id : Nat
  currency_id : Nat
  move_line_id_to_reconcile : Nat
deriving DecidableEq

/-- Embeds one move dict produced by `_get_move_dict_vals`. -/
structure MoveVals where
  currency_id : Nat
  journal_id : Nat
  date : String
  ref : String
  line_ids : List LineVals
  related_to_move : String
deriving DecidableEq

/-- Embeds `self.company_currency_id.round`: the identity on integer minor
currency units. -/
def currency_round (amount : Int) : Int := amount

/-- Embeds the local helper `fiz` (`float_is_zero` at the company currency
rounding): exact zero test on integer minor currency units. -/
def fiz (amount : Int) : Bool := amount == 0

/-- Embeds the local helper `get_debit_credit` of `_get_move_dict_vals`. -/
def get_debit_credit (amount : Int) : Int × Int :=
  if amount > 0 then (amount, 0) else (0, if fiz amount then 0 else -amount)

/-- Embeds the local helper `get_amount_to_use` of `_get_move_dict_vals`:
`amount = max(amount_to_fill, avaiable_amount)` replaced by the `min` when
`amount_to_fill > 0`, then currency-rounded. -/
def get_amount_to_use (amount_to_fill avaiable_amount : Int) : Int :=
  currency_round
    (if amount_to_fill > 0 then min amount_to_fill avaiable_amount
     else max amount_to_fill avaiable_amount)

/-- Embeds the local helper `get_clear_sign_modifier` of
`_get_move_dict_vals`. -/
def get_clear_sign_modifier (a b : Int) : Int :=
  if (a < 0 ∧ b > 0) ∨ (a > 0 ∧ b < 0) then -1 else 1

/-- Embeds Python's `str.strip`: drops leading and trailing whitespace
characters. Defined over the character list so that it evaluates inside the
kernel. -/
def str_strip (s : String) : String :=
  ⟨(((s.data.dropWhile Char.isWhitespace).reverse).dropWhile
      Char.isWhitespace).reverse⟩

/-- Embeds the local helper `build_line_name` of `_get_move_dict_vals`:
`txts = [prefix, move name, line name]`, the tail replaced by the move name
alone when the line name equals it, then the falsy (empty) entries are
filtered out, each survivor is stripped, and the results are joined. -/
def build_line_name (pfx : String) (move_line : MoveLine) : String :=
  let txts := [pfx, move_line.move_name, move_line.name]
  let txts :=
    if move_line.move_name = move_line.name
    then [pfx, move_line.move_name] else txts
  String.intercalate " - " ((txts.filter (fun t => t ≠ "")).map str_strip)

/-- State returned by the inner loop of `_get_move_dict_vals` over the
availability ledger, for one source move line: the emitted clearing lines
(`related_move_line_vals`), the final `ml_amount_residual`, the final
`cl_balance`, and the updated `clear_lines_availability` ledger. -/
structure LoopResult where
  lines : List LineVals
  ml_res : Int
  cl_bal : Int
  avail : List (MoveLine × Int)
deriving DecidableEq

/-- Embeds the inner `for cl_move_line in clear_lines_availability` loop of
`_get_move_dict_vals` for one source move line: walks the insertion-ordered
availability ledger, breaking when the residual is cleared, skipping
exhausted candidates, and otherwise transferring `used_amount`
(`availability += used_amount`, `ml_amount_residual -= used_amount`,
`cl_balance += clear_sign * used_amount`) while emitting one clearing line. -/
def clear_loop (w : Wizard) (ml_amount_residual cl_balance : Int) :
    List (MoveLine × Int) → LoopResult
  | [] => ⟨[], ml_amount_residual, cl_balance, []⟩
  | (cl_move_line, av) :: rest =>
    if fiz ml_amount_residual then
      ⟨[], ml_amount_residual, cl_balance, (cl_move_line, av) :: rest⟩
    else if fiz av then
      let o := clear_loop w ml_amount_residual cl_balance rest
      ⟨o.lines, o.ml_res, o.cl_bal, (cl_move_line, av) :: o.avail⟩
    else
      let clear_sign := get_clear_sign_modifier ml_amount_residual av
      let used_amount := get_amount_to_use ml_amount_residual (clear_sign * av)
      let dc := get_debit_credit used_amount
      let line : LineVals :=
        { name := build_line_name w.move_line_pfx cl_move_line
          debit := dc.1
          credit := dc.2
          account_id := cl_move_line.account_id
          partner_id := w.commercial_partner_id
          currency_id := w.company_currency_id
          move_line_id_to_reconcile := cl_move_line.id }
      let o := clear_loop w (ml_amount_residual - used_amount)
        (cl_balance + clear_sign * used_amount) rest
      ⟨line :: o.lines, o.ml_res, o.cl_bal, (cl_move_line, av + used_amount) :: o.avail⟩

/-- Embeds the body of the `for move_line in move_lines` loop of
`_get_move_dict_vals` for one source move line: run the inner clearing loop,
derive the source line's debit/credit from the accumulated `cl_balance`, and
drop the whole block (the source line and its related clearing lines) when
both are zero. -/
def process_move_line (w : Wizard) (move_line : MoveLine)
    (avail : List (MoveLine × Int)) : List LineVals × List (MoveLine × Int) :=
  let o := clear_loop w move_line.amount_residual 0 avail
  let dc := get_debit_credit o.cl_bal
  if fiz dc.1 && fiz dc.2 then ([], o.avail)
  else
    ({ name := build_line_name w.move_line_pfx move_line
       debit := dc.1
       credit := dc.2
       account_id := move_line.account_id
       partner_id := w.commercial_partner_id
       currency_id := w.company_currency_id
       move_line_id_to_reconcile := move_line.id } :: o.lines,
     o.avail)

/-- Embeds the accumulation of `line_vals` over the source move lines of one
document, threading the availability ledger. -/
def process_move_lines (w : Wizard) :
    List MoveLine → List (MoveLine × Int) → List LineVals × List (MoveLine × Int)
  | [], avail => ([], avail)
  | ml :: mls, avail =>
    let p := process_move_line w ml avail
    let q := process_move_lines w mls p.2
    (p.1 ++ q.1, q.2)

/-- One group produced by `groupby(self.move_line_ids, key=ml.move_id)`: the
name of the move and its consecutive source move lines. -/
structure SrcGroup where
  move_name : String
  lines : List MoveLine
deriving DecidableEq

/-- Embeds the outer `for move, move_lines in groupby(...)` loop of
`_get_move_dict_vals`, also returning the final availability ledger (the
state of `clear_lines_availability` after the run). Documents that produced
no lines are skipped. -/
def get_move_dict_vals_core (w : Wizard) :
    List SrcGroup → List (MoveLine × Int) → List MoveVals × List (MoveLine × Int)
  | [], avail => ([], avail)
  | g :: gs, avail =>
    let p := process_move_lines w g.lines avail
    let q := get_move_dict_vals_core w gs p.2
    if p.1 = [] then q
    else
      ({ currency_id := w.company_currency_id
         journal_id := w.journal_id
         date := w.date
         ref := w.move_name
         line_ids := p.1
         related_to_move := g.move_name } :: q.1, q.2)

/-- Embeds `_get_move_dict_vals`: builds the availability ledger from the
wizard lines with a truthy (non-zero) `amount_to_clear`, in order, then runs
the grouped source move lines against it. -/
def get_move_dict_vals (w : Wizard) (groups : List SrcGroup)
    (line_ids : List ClearLine) : List MoveVals :=
  let avail := (line_ids.filter (fun l => l.amount_to_clear != 0)).map
    (fun l => (l.move_line, l.amount_to_clear))
  (get_move_dict_vals_core w groups avail).1

/-- Embeds one step of `action_fill_amount_to_clear` on one wizard line:
lines with a truthy `amount_to_clear` were excluded by the `filtered`
pre-selection (they are skipped unchanged); otherwise, a zero remaining
target assigns `0`, a sign-aware comparison (`<=` when the line's
`amount_residual` is negative, `>=` otherwise) between the remaining target
and the residual decides between assigning the full residual (subtracting it
from the target) and assigning the remaining target (zeroing it). -/
def fill_step (amount_to_clear : Int) (line : ClearLine) : ClearLine × Int :=
  if line.amount_to_clear != 0 then (line, amount_to_clear)
  else if fiz amount_to_clear then
    ({ line with amount_to_clear := 0 }, amount_to_clear)
  else if (if line.move_line.amount_residual < 0
           then amount_to_clear ≤ line.move_line.amount_residual
           else amount_to_clear ≥ line.move_line.amount_residual) then
    ({ line with amount_to_clear := line.move_line.amount_residual },
     amount_to_clear - line.move_line.amount_residual)
  else
    ({ line with amount_to_clear := amount_to_clear }, 0)

/-- Embeds `action_fill_amount_to_clear`: walk the wizard lines in order with
the running (already sign-inverted) target, returning the updated lines and
the final target. -/
def action_fill_amount_to_clear (amount_to_clear : Int) :
    List ClearLine → List ClearLine × Int
  | [] => ([], amount_to_clear)
  | l :: ls =>
    let p := fill_step amount_to_clear l
    let q := action_fill_amount_to_clear p.2 ls
    (p.1 :: q.1, q.2)

/-- Embeds the validation errors raised by the wizard line constraints. -/
inductive ValidationError where
  | amount_exceeds_residual
deriving DecidableEq

/-- Embeds the `_check_amount_to_clear` constraint on one wizard line. -/
def check_amount_to_clear (record : ClearLine) : Except ValidationError Unit :=
  if |record.amount_to_clear| > |record.move_line.amount_residual| then
    Except.error ValidationError.amount_exceeds_residual
  else Except.ok ()

/-- Sum of the debit fields of a line list. -/
def sum_debit (ls : List LineVals) : Int := (ls.map LineVals.debit).sum

/-- Sum of the credit fields of a line list. -/
def sum_credit (ls : List LineVals) : Int := (ls.map LineVals.credit).sum

/-- Signed sum (debit minus credit) of a line list. -/
def line_sum (ls : List LineVals) : Int :=
  (ls.map (fun l => l.debit - l.credit)).sum

/-- Label builder exactly as claim C9 words it: the parts (with the duplicate
line description dropped when it equals the document reference) are each
stripped of surrounding whitespace first, and then only the non-empty results
are kept and joined, so a whitespace-only part is dropped. -/
def build_line_name_claimed (pfx : String) (move_line : MoveLine) : String :=
  let txts :=
    if move_line.move_name = move_line.name
    then [pfx, move_line.move_name]
    else [pfx, move_line.move_name, move_line.name]
  String.intercalate " - " ((txts.map str_strip).filter (fun t => t ≠ ""))

/-- Label builder as amended claim C9 words it: the empty parts are dropped
first (a whitespace-only part is kept and later becomes an empty segment),
then each surviving part is stripped, and the results are joined by the
separator; when the line description equals the document reference the
duplicate description is dropped. -/
def build_line_name_amended (pfx : String) (move_line : MoveLine) : String :=
  let txts :=
    if move_line.move_name = move_line.name
    then [pfx, move_line.move_name]
    else [pfx, move_line.move_name, move_line.name]
  String.intercalate " - " ((txts.filter (fun t => t ≠ "")).map str_strip)

/-- Planner step exactly as claim C5 words it: the comparator is chosen by
the sign of the source amount being cleared (`<=` when it is negative, `>=`
when it is positive), not by the candidate's own residual sign. -/
def fill_step_claimed (src_negative : Bool) (amount_to_clear : Int)
    (line : ClearLine) : ClearLine × Int :=
  if line.amount_to_clear != 0 then (line, amount_to_clear)
  else if fiz amount_to_clear then
    ({ line with amount_to_clear := 0 }, amount_to_clear)
  else if (if src_negative
           then amount_to_clear ≤ line.move_line.amount_residual
           else amount_to_clear ≥ line.move_line.amount_residual) then
    ({ line with amount_to_clear := line.move_line.amount_residual },
     amount_to_clear - line.move_line.amount_residual)
  else
    ({ line with amount_to_clear := amount_to_clear }, 0)

/-- Planner walk exactly as claim C5 words it, built on
`fill_step_claimed`. -/
def action_fill_claimed (src_negative : Bool) (amount_to_clear : Int) :
    List ClearLine → List ClearLine × Int
  | [] => ([], amount_to_clear)
  | l :: ls =>
    let p := fill_step_claimed src_negative amount_to_clear l
    let q := action_fill_claimed src_negative p.2 ls
    (p.1 :: q.1, q.2)

/-- Planner step as amended claim C5 words it: already-assigned lines are
skipped; a zero remaining target assigns zero; otherwise the comparator is
chosen by the sign of the candidate's own `amount_residual` (`<=` when it is
negative, `>=` otherwise), the full residual is assigned and subtracted from
the target when the comparison holds, and the remaining target is assigned
and zeroed when it does not. -/
def fill_step_amended (amount_to_clear : Int) (line : ClearLine) :
    ClearLine × Int :=
  if line.amount_to_clear ≠ 0 then (line, amount_to_clear)
  else if amount_to_clear = 0 then
    ({ line with amount_to_clear := 0 }, amount_to_clear)
  else
    let fits :=
      if line.move_line.amount_residual < 0
      then amount_to_clear ≤ line.move_line.amount_residual
      else line.move_line.amount_residual ≤ amount_to_clear
    if fits then
      ({ line with amount_to_clear := line.move_line.amount_residual },
       amount_to_clear - line.move_line.amount_residual)
    else
      ({ line with amount_to_clear := amount_to_clear }, 0)

/-- Planner walk as amended claim C5 words it, built on
`fill_step_amended`. -/
def action_fill_amended (amount_to_clear : Int) :
    List ClearLine → List ClearLine × Int
  | [] => ([], amount_to_clear)
  | l :: ls =>
    let p := fill_step_amended amount_to_clear l
    let q := action_fill_amended p.2 ls
    (p.1 :: q.1, q.2)

/-- Relation between an availability-ledger entry before and after a run
fragment: the candidate key is unchanged and its availability moved toward
zero without crossing it, relative to the polarity sign `sg` of the
availabilities. -/
def Between (sg : Int) (p q : MoveLine × Int) : Prop :=
  p.1 = q.1 ∧ 0 ≤ sg * q.2 ∧ 0 ≤ sg * (p.2 - q.2)

/-- Sample wizard record used in the concrete runs below. -/
def w0c : Wizard := ⟨"Clearing operation", "P", 1, 2, 3, "2026-01-01"⟩

/-- Sample source move line with residual -100. -/
def srcAc : MoveLine := ⟨10, 100, "INV1", "lineA", 40, -100⟩

/-- Sample source move line with residual -60. -/
def src60c : MoveLine := ⟨11, 100, "INV1", "l60", 40, -60⟩

/-- Sample source move line with residual -40. -/
def src40c : MoveLine := ⟨12, 100, "INV1", "l40", 40, -40⟩

/-- Sample source move line with residual -10. -/
def srcBc : MoveLine := ⟨13, 100, "INV1", "lB", 40, -10⟩

/-- Sample source move line with residual -3. -/
def srcCc : MoveLine := ⟨14, 100, "INV1", "lC", 40, -3⟩

/-- Sample clearing candidate move line with residual 150. -/
def candAc : MoveLine := ⟨7, 200, "PAY1", "payA", 41, 150⟩

/-- Sample clearing candidate move line with residual 99. -/
def cand1c : MoveLine := ⟨21, 201, "X1", "x1", 41, 99⟩

/-- Sample clearing candidate move line with residual -99. -/
def cand2c : MoveLine := ⟨22, 202, "X2", "x2", 41, -99⟩

/-- Sample source group list: one document holding `srcAc`. -/
def G1 : List SrcGroup := [⟨"INV1", [srcAc]⟩]

/-- Sample wizard line list: `candAc` capped at 100. -/
def L1 : List ClearLine := [⟨candAc, 100⟩]

/-- Default move dict used only to take the head of a concrete result. -/
def M0 : MoveVals := ⟨0, 0, "", "", [], ""⟩

@[simp] theorem fiz_iff (a : Int) : fiz a = true ↔ a = 0 := by
  simp [fiz]

theorem get_debit_credit_sub (a : Int) :
    (get_debit_credit a).1 - (get_debit_credit a).2 = a := by
  unfold get_debit_credit
  by_cases h : a > 0
  · simp [h]
  · by_cases h0 : a = 0
    · simp [h, h0, fiz]
    · simp only [if_neg h, fiz, beq_iff_eq, if_neg h0]
      omega

theorem line_sum_cons (x : LineVals) (xs : List LineVals) :
    line_sum (x :: xs) = (x.debit - x.credit) + line_sum xs := by
  simp [line_sum]

theorem line_sum_append (a b : List LineVals) :
    line_sum (a ++ b) = line_sum a + line_sum b := by
  simp [line_sum]

theorem line_sum_eq_sub (ls : List LineVals) :
    line_sum ls = sum_debit ls - sum_credit ls := by
  induction ls with
  | nil => simp [line_sum, sum_debit, sum_credit]
  | cons x xs ih =>
    simp [line_sum, sum_debit, sum_credit] at ih ⊢
    omega

/-- C8: commit-time validation of a clearing candidate fails with the
amount-exceeds-residual validation error if and only if
`|requested_amount| > |residual_amount|`, and passes (returning ok, raising
no error) if and only if `|requested_amount| ≤ |residual_amount|`, for any
sign combination. -/
theorem check_amount_to_clear_spec (record : ClearLine) :
    (check_amount_to_clear record
        = Except.error ValidationError.amount_exceeds_residual
      ↔ |record.move_line.amount_residual| < |record.amount_to_clear|)
    ∧ (check_amount_to_clear record = Except.ok ()
      ↔ |record.amount_to_clear| ≤ |record.move_line.amount_residual|) := by
  unfold check_amount_to_clear
  constructor
  · split <;> rename_i h <;> simp <;> omega
  · split <;> rename_i h <;> simp <;> omega

/-- C9 fails as stated: `build_line_name` filters out the falsy (empty) parts
before stripping, so a whitespace-only part is not dropped but becomes an
empty segment of the joined label; with a whitespace-only label part the code
and the claimed trim-first label differ. -/
theorem build_line_name_counterexample :
    build_line_name " " ⟨1, 1, "INV", "desc", 1, 0⟩ = " - INV - desc"
    ∧ build_line_name_claimed " " ⟨1, 1, "INV", "desc", 1, 0⟩ = "INV - desc"
    ∧ build_line_name " " ⟨1, 1, "INV", "desc", 1, 0⟩
        ≠ build_line_name_claimed " " ⟨1, 1, "INV", "desc", 1, 0⟩ := by
  refine ⟨rfl, rfl, by decide⟩

/-- C9 amended: `build_line_name` returns the parts of
`[prefix, document_reference, line_description]` with the empty parts dropped
first and each surviving part then stripped of surrounding whitespace (so a
whitespace-only part is kept and becomes an empty segment), joined by the
separator; when the line description equals the document reference the
duplicate description is dropped so the reference appears only once. -/
theorem build_line_name_eq_amended (pfx : String) (move_line : MoveLine) :
    build_line_name pfx move_line = build_line_name_amended pfx move_line := by
  by_cases h : move_line.move_name = move_line.name <;>
    simp [build_line_name, build_line_name_amended, h]

/-- C2 fails as stated: in the transfer step with remaining residual -100 and
candidate availability 100, the aligned used amount is -100 and the code sets
the new availability to 100 + (-100) = 0, not to the claimed
100 - (-100) = 200. -/
theorem clear_step_counterexample :
    get_amount_to_use (-100) (get_clear_sign_modifier (-100) 100 * 100) = -100
    ∧ (clear_loop w0c (-100) 0 [(candAc, 100)]).avail = [(candAc, 0)]
    ∧ (0 : Int) ≠ 100 - (-100) := by
  refine ⟨rfl, rfl, by decide⟩

/-- C2 amended: in every step of the inner loop that transfers against a
candidate (non-zero remaining residual, non-zero availability), the
candidate's availability is updated to its previous availability plus
`used_amount` (the aligned amount carries the sign opposite to the
availability in a valid run, so this shrinks the availability's magnitude),
while the loop continues with the source line's remaining residual
decremented by `used_amount` and with `used_amount * clear_sign` accumulated
into the settled balance. -/
theorem clear_loop_step (w : Wizard) (cl_move_line : MoveLine)
    (av r b : Int) (rest : List (MoveLine × Int))
    (hr : r ≠ 0) (ha : av ≠ 0) :
    (clear_loop w r b ((cl_move_line, av) :: rest)).avail
      = (cl_move_line,
          av + get_amount_to_use r (get_clear_sign_modifier r av * av)) ::
        (clear_loop w
          (r - get_amount_to_use r (get_clear_sign_modifier r av * av))
          (b + get_clear_sign_modifier r av
              * get_amount_to_use r (get_clear_sign_modifier r av * av))
          rest).avail
    ∧ (clear_loop w r b ((cl_move_line, av) :: rest)).ml_res
      = (clear_loop w
          (r - get_amount_to_use r (get_clear_sign_modifier r av * av))
          (b + get_clear_sign_modifier r av
              * get_amount_to_use r (get_clear_sign_modifier r av * av))
          rest).ml_res
    ∧ (clear_loop w r b ((cl_move_line, av) :: rest)).cl_bal
      = (clear_loop w
          (r - get_amount_to_use r (get_clear_sign_modifier r av * av))
          (b + get_clear_sign_modifier r av
              * get_amount_to_use r (get_clear_sign_modifier r av * av))
          rest).cl_bal := by
  have h1 : fiz r = false := by simp [fiz, hr]
  have h2 : fiz av = false := by simp [fiz, ha]
  refine ⟨?_, ?_, ?_⟩ <;> simp [clear_loop, h1, h2]

/-- Witness for the amended C2 step theorem at remaining residual -50 and
availability 80: the used amount is -50 and the availability becomes 30. -/
theorem clear_loop_step_witness :
    (clear_loop w0c (-50) 0 [(cand1c, 80)]).avail = [(cand1c, 30)] := by
  have h := clear_loop_step w0c cand1c 80 (-50) 0 [] (by decide) (by decide)
  rw [h.1]
  rfl

/-- C7: for a source line whose derived debit and credit (both computed by
`get_debit_credit` from the settled clearing balance) are zero within the
rounding tolerance, the engine emits no lines at all for it: neither the
source line's own output line nor any clearing-candidate line computed while
processing it survives. -/
theorem source_line_zero_drop (w : Wizard) (move_line : MoveLine)
    (avail : List (MoveLine × Int))
    (h1 : fiz (get_debit_credit
        (clear_loop w move_line.amount_residual 0 avail).cl_bal).1 = true)
    (h2 : fiz (get_debit_credit
        (clear_loop w move_line.amount_residual 0 avail).cl_bal).2 = true) :
    (process_move_line w move_line avail).1 = [] := by
  unfold process_move_line
  simp [h1, h2]

/-- Witness for C7: a source line with residual -10 netted to a zero settled
balance by two opposite-sign candidates contributes no lines, although two
intermediate clearing lines were computed for it. -/
theorem source_line_zero_drop_witness :
    fiz (get_debit_credit
        (clear_loop w0c srcBc.amount_residual 0
          [(cand1c, 5), (cand2c, -5)]).cl_bal).1 = true
    ∧ (process_move_line w0c srcBc [(cand1c, 5), (cand2c, -5)]).1 = [] := by
  refine ⟨by decide,
    source_line_zero_drop w0c srcBc [(cand1c, 5), (cand2c, -5)]
      (by decide) (by decide)⟩

/-- C10: when a source line's block is dropped because its settled balance is
zero, the availability ledger is not rolled back: the run continues on the
availability left behind by the inner clearing loop, so every later source
line allocates from the reduced availability even though the dropped block's
clearing lines never appear in any entry. -/
theorem availability_not_rolled_back (w : Wizard) (ml : MoveLine)
    (mls : List MoveLine) (avail : List (MoveLine × Int))
    (h : (clear_loop w ml.amount_residual 0 avail).cl_bal = 0) :
    process_move_lines w (ml :: mls) avail
      = process_move_lines w mls
          (clear_loop w ml.amount_residual 0 avail).avail := by
  have hp : process_move_line w ml avail
      = ([], (clear_loop w ml.amount_residual 0 avail).avail) := by
    unfold process_move_line
    simp [h, get_debit_credit, fiz]
  simp [process_move_lines, hp]

/-- Witness for C10: the dropped source line with residual -10 leaves the two
candidates at availability 0 and -10, and the rest of the run continues from
there. -/
theorem availability_not_rolled_back_witness :
    (clear_loop w0c srcBc.amount_residual 0
        [(cand1c, 5), (cand2c, -5)]).cl_bal = 0
    ∧ process_move_lines w0c [srcBc, srcCc] [(cand1c, 5), (cand2c, -5)]
      = process_move_lines w0c [srcCc] [(cand1c, 0), (cand2c, -10)] := by
  constructor
  · decide
  · rw [availability_not_rolled_back w0c srcBc [srcCc] _ (by decide)]
    rfl

/-- Reconciliation back-references of the clearing lines emitted for one
source line form a sublist of the availability ledger's candidate ids, in
ledger order. -/
theorem clear_loop_recon_sublist (w : Wizard) :
    ∀ (avail : List (MoveLine × Int)) (r b : Int),
      ((clear_loop w r b avail).lines.map
          LineVals.move_line_id_to_reconcile).Sublist
        (avail.map (fun p => p.1.id)) := by
  intro avail
  induction avail with
  | nil => intro r b; simp [clear_loop]
  | cons hd tl ih =>
    intro r b
    obtain ⟨cl, av⟩ := hd
    by_cases h0 : r = 0
    · simp [clear_loop, fiz, h0]
    · by_cases h1 : av = 0
      · have h0' : fiz r = false := by simp [fiz, h0]
        have h1' : fiz av = true := by simp [fiz, h1]
        simp only [clear_loop, h0', h1', Bool.false_eq_true, if_false, if_true,
          List.map_cons]
        exact (ih r b).cons _
      · have h0' : fiz r = false := by simp [fiz, h0]
        have h1' : fiz av = false := by simp [fiz, h1]
        simp only [clear_loop, h0', h1', Bool.false_eq_true, if_false,
          List.map_cons]
        exact (ih _ _).cons₂ _

/-- C3 fails as stated: in the spec's own scenario (one document with source
lines -60 and -40 and one candidate capped at 100), the candidate is consumed
by both source lines and gives rise to two output lines in the document's
single entry. -/
theorem candidate_two_lines_counterexample :
    (get_move_dict_vals w0c [⟨"INV1", [src60c, src40c]⟩] [⟨candAc, 100⟩]).map
      (fun mv => (mv.line_ids.filter
        (fun l => l.move_line_id_to_reconcile == candAc.id)).length) = [2] := by
  decide

/-- C3 amended: each entry contains at most one line per source line plus at
most one line per (source line, clearing candidate) pair actually consumed:
within the block emitted for one source line the back-references are pairwise
distinct (the source line occurs at most once and each candidate at most
once), while a candidate consumed by several source lines contributes one
line per consuming source line. -/
theorem process_move_line_block_nodup (w : Wizard) (move_line : MoveLine)
    (avail : List (MoveLine × Int))
    (hn : (avail.map (fun p => p.1.id)).Nodup)
    (hm : move_line.id ∉ avail.map (fun p => p.1.id)) :
    (((process_move_line w move_line avail).1).map
        LineVals.move_line_id_to_reconcile).Nodup := by
  have hs := clear_loop_recon_sublist w avail move_line.amount_residual 0
  have hln : ((clear_loop w move_line.amount_residual 0 avail).lines.map
      LineVals.move_line_id_to_reconcile).Nodup := hn.sublist hs
  unfold process_move_line
  dsimp only
  split
  · simp
  · simp only [List.map_cons, List.nodup_cons]
    exact ⟨fun hmem => hm (hs.subset hmem), hln⟩

/-- Witness for the amended C3 theorem: the scenario with source line -60
against the candidate capped at 100, per source line. -/
theorem process_move_line_block_nodup_witness :
    ([candAc.id].Nodup ∧ src60c.id ∉ [candAc.id])
    ∧ (((process_move_line w0c src60c [(candAc, 100)]).1).map
        LineVals.move_line_id_to_reconcile).Nodup := by
  refine ⟨⟨by decide, by decide⟩, ?_⟩
  exact process_move_line_block_nodup w0c src60c [(candAc, 100)]
    (by decide) (by decide)

/-- C5 fails as stated: with negative source amounts being cleared (so the
sign-inverted target is 100) and a candidate with positive residual 150, the
claimed source-sign comparator (less-or-equal) predicts that the full
residual fits and assigns 150, but the code chooses the comparator by the
candidate's own residual sign (greater-or-equal here) and assigns the
remaining target 100. -/
theorem planner_comparator_counterexample :
    (action_fill_amount_to_clear 100 [⟨candAc, 0⟩]).1.map
        ClearLine.amount_to_clear = [100]
    ∧ (action_fill_claimed true 100 [⟨candAc, 0⟩]).1.map
        ClearLine.amount_to_clear = [150]
    ∧ action_fill_amount_to_clear 100 [⟨candAc, 0⟩]
        ≠ action_fill_claimed true 100 [⟨candAc, 0⟩] := by
  refine ⟨by decide, by decide, by decide⟩

/-- C5 amended: the planner walks the candidates in their given order,
skipping already-assigned ones; it assigns 0 when the remaining target is
zero within rounding tolerance; otherwise it compares the target with the
candidate's residual_amount using less-or-equal when the candidate's own
residual_amount is negative and greater-or-equal when it is nonnegative; when
the full residual fits it assigns the residual and subtracts it from the
target, and otherwise it assigns the remaining target and zeroes the
target. -/
theorem action_fill_eq_amended (amount_to_clear : Int) (ls : List ClearLine) :
    action_fill_amount_to_clear amount_to_clear ls
      = action_fill_amended amount_to_clear ls := by
  induction ls generalizing amount_to_clear with
  | nil => rfl
  | cons l tl ih =>
    have hstep : fill_step amount_to_clear l
        = fill_step_amended amount_to_clear l := by
      unfold fill_step fill_step_amended
      by_cases h1 : l.amount_to_clear = 0 <;>
        by_cases h2 : amount_to_clear = 0 <;>
          simp [h1, h2, fiz, ge_iff_le]
    simp [action_fill_amount_to_clear, action_fill_amended, hstep, ih]

theorem clearline_eta_zero (l : ClearLine) (h : l.amount_to_clear = 0) :
    ({ l with amount_to_clear := 0 } : ClearLine) = l := by
  cases l
  simp_all

theorem action_fill_cons (t : Int) (l : ClearLine) (tl : List ClearLine) :
    action_fill_amount_to_clear t (l :: tl)
      = ((fill_step t l).1
            :: (action_fill_amount_to_clear (fill_step t l).2 tl).1,
         (action_fill_amount_to_clear (fill_step t l).2 tl).2) := rfl

theorem action_fill_zero (ls : List ClearLine) :
    action_fill_amount_to_clear 0 ls = (ls, 0) := by
  induction ls with
  | nil => rfl
  | cons l tl ih =>
    have hstep : fill_step 0 l = (l, 0) := by
      unfold fill_step
      by_cases h : l.amount_to_clear = 0
      · simp [h, fiz, clearline_eta_zero l h]
      · simp [h]
    simp [action_fill_cons, hstep, ih]

theorem action_fill_target_nonneg (ls : List ClearLine) :
    ∀ t : Int, 0 ≤ t → 0 ≤ (action_fill_amount_to_clear t ls).2 := by
  induction ls with
  | nil => intro t ht; simpa [action_fill_amount_to_clear] using ht
  | cons l tl ih =>
    intro t ht
    have hstep : 0 ≤ (fill_step t l).2 := by
      unfold fill_step
      split
      · simpa using ht
      · split
        · simpa using ht
        · split <;> split
          · rename_i hres hc
            dsimp only
            omega
          · simp
          · rename_i hres hc
            dsimp only
            omega
          · simp
    rw [action_fill_cons]
    exact ih _ hstep

/-- C6: the planner is idempotent: re-running `action_fill_amount_to_clear`
on its own output, with the unconsumed target left by the first run, is a
no-op: no already-assigned candidate is overwritten, and the assignments
(and remaining target) after two runs equal those after one run. -/
theorem action_fill_idempotent (amount_to_clear : Int) (ls : List ClearLine) :
    action_fill_amount_to_clear
        (action_fill_amount_to_clear amount_to_clear ls).2
        (action_fill_amount_to_clear amount_to_clear ls).1
      = action_fill_amount_to_clear amount_to_clear ls := by
  induction ls generalizing amount_to_clear with
  | nil => rfl
  | cons l tl ih =>
    by_cases h1 : l.amount_to_clear = 0
    · by_cases h2 : amount_to_clear = 0
      · have hstep : fill_step amount_to_clear l = (l, amount_to_clear) := by
          unfold fill_step
          simp [h1, h2, fiz, clearline_eta_zero l h1]
        subst h2
        simp [action_fill_cons, hstep, action_fill_zero]
      · by_cases h3 : (if l.move_line.amount_residual < 0
            then amount_to_clear ≤ l.move_line.amount_residual
            else amount_to_clear ≥ l.move_line.amount_residual)
        · by_cases h4 : l.move_line.amount_residual = 0
          · have hstep : fill_step amount_to_clear l = (l, amount_to_clear) := by
              unfold fill_step
              rw [if_neg (by simp [h1]), if_neg (by simp [fiz, h2]), if_pos h3,
                h4, clearline_eta_zero l h1]
              simp
            have hpos : 0 < amount_to_clear := by
              rw [h4] at h3
              simp only [lt_irrefl, if_false, ge_iff_le] at h3
              omega
            have ht1 : 0 ≤ (action_fill_amount_to_clear amount_to_clear tl).2 :=
              action_fill_target_nonneg tl _ (le_of_lt hpos)
            have hstep2 :
                fill_step (action_fill_amount_to_clear amount_to_clear tl).2 l
                  = (l, (action_fill_amount_to_clear amount_to_clear tl).2) := by
              unfold fill_step
              by_cases h5 : (action_fill_amount_to_clear amount_to_clear tl).2 = 0
              · simp [h1, h5, fiz, clearline_eta_zero l h1]
              · rw [if_neg (by simp [h1]), if_neg (by simp [fiz, h5]),
                  if_pos (by rw [h4]; simpa using ht1),
                  h4, clearline_eta_zero l h1]
                simp
            simp [action_fill_cons, hstep, hstep2, ih]
          · have hstep : fill_step amount_to_clear l
                = ({ l with amount_to_clear := l.move_line.amount_residual },
                   amount_to_clear - l.move_line.amount_residual) := by
              unfold fill_step
              rw [if_neg (by simp [h1]), if_neg (by simp [fiz, h2]), if_pos h3]
            have hskip : ∀ t' : Int,
                fill_step t' { l with amount_to_clear := l.move_line.amount_residual }
                  = ({ l with amount_to_clear := l.move_line.amount_residual }, t') := by
              intro t'
              unfold fill_step
              simp [h4]
            simp [action_fill_cons, hstep, hskip, ih]
        · have hstep : fill_step amount_to_clear l
              = ({ l with amount_to_clear := amount_to_clear }, 0) := by
            unfold fill_step
            rw [if_neg (by simp [h1]), if_neg (by simp [fiz, h2]), if_neg h3]
          have hskip : ∀ t' : Int,
              fill_step t' { l with amount_to_clear := amount_to_clear }
                = ({ l with amount_to_clear := amount_to_clear }, t') := by
            intro t'
            unfold fill_step
            simp [h2]
          simp [action_fill_cons, hstep, hskip, action_fill_zero]
    · have hstep : ∀ t' : Int, fill_step t' l = (l, t') := by
        intro t'
        unfold fill_step
        simp [h1]
      simp [action_fill_cons, hstep, ih]

theorem step_facts (sg r av : Int) (hsg : sg = 1 ∨ sg = -1)
    (hr : sg * r ≤ 0) (h0 : r ≠ 0) (hav : 0 ≤ sg * av) (h1 : av ≠ 0) :
    get_clear_sign_modifier r av = -1
    ∧ sg * (r - get_amount_to_use r (-av)) ≤ 0
    ∧ 0 ≤ sg * (av + get_amount_to_use r (-av))
    ∧ sg * get_amount_to_use r (-av) ≤ 0 := by
  rcases hsg with hs | hs <;> subst hs
  · have hrneg : r < 0 := by omega
    have havpos : 0 < av := by omega
    have hcs : get_clear_sign_modifier r av = -1 := by
      unfold get_clear_sign_modifier
      rw [if_pos (Or.inl ⟨hrneg, havpos⟩)]
    have hu : get_amount_to_use r (-av) = max r (-av) := by
      unfold get_amount_to_use currency_round
      rw [if_neg (by omega)]
    refine ⟨hcs, ?_, ?_, ?_⟩ <;> rw [hu] <;> omega
  · have hrpos : 0 < r := by omega
    have havneg : av < 0 := by omega
    have hcs : get_clear_sign_modifier r av = -1 := by
      unfold get_clear_sign_modifier
      rw [if_pos (Or.inr ⟨hrpos, havneg⟩)]
    have hu : get_amount_to_use r (-av) = min r (-av) := by
      unfold get_amount_to_use currency_round
      rw [if_pos hrpos]
    refine ⟨hcs, ?_, ?_, ?_⟩ <;> rw [hu] <;> omega

/-- Polarity invariant of the inner clearing loop: when the source residual
and every ledger availability carry opposite polarities (recorded by the sign
`sg` of the availabilities), the loop books every emitted line's signed
amount against `cl_balance`, moves the residual toward zero without crossing
it, and moves every availability toward zero without crossing it, keeping the
candidate keys and the ledger length. -/
theorem clear_loop_inv (w : Wizard) (sg : Int) (hsg : sg = 1 ∨ sg = -1) :
    ∀ (avail : List (MoveLine × Int)) (r b : Int),
      sg * r ≤ 0 → (∀ p ∈ avail, 0 ≤ sg * p.2) →
      ((clear_loop w r b avail).cl_bal
          + line_sum (clear_loop w r b avail).lines = b)
      ∧ sg * (clear_loop w r b avail).ml_res ≤ 0
      ∧ 0 ≤ sg * ((clear_loop w r b avail).ml_res - r)
      ∧ List.Forall₂ (Between sg) avail (clear_loop w r b avail).avail := by
  intro avail
  induction avail with
  | nil =>
    intro r b hr _
    refine ⟨by simp [clear_loop, line_sum], by simpa [clear_loop] using hr,
      by simp [clear_loop], by simp [clear_loop]⟩
  | cons hd tl ih =>
    intro r b hr ha
    obtain ⟨cl, av⟩ := hd
    have hav : 0 ≤ sg * av := ha (cl, av) (List.mem_cons_self _ _)
    have hatl : ∀ p ∈ tl, 0 ≤ sg * p.2 := fun p hp =>
      ha p (List.mem_cons_of_mem _ hp)
    by_cases h0 : r = 0
    · have h0' : fiz r = true := by simp [fiz, h0]
      refine ⟨?_, ?_, ?_, ?_⟩ <;>
        simp only [clear_loop, h0', if_true]
      · simp [line_sum]
      · exact hr
      · simp
      · exact List.forall₂_same.mpr (fun p hp => ⟨rfl, ha p hp, by simp⟩)
    · by_cases h1 : av = 0
      · have h0' : fiz r = false := by simp [fiz, h0]
        have h1' : fiz av = true := by simp [fiz, h1]
        obtain ⟨ih1, ih2, ih3, ih4⟩ := ih r b hr hatl
        refine ⟨?_, ?_, ?_, ?_⟩ <;>
          simp only [clear_loop, h0', h1', Bool.false_eq_true, if_false,
            if_true]
        · exact ih1
        · exact ih2
        · exact ih3
        · exact List.Forall₂.cons ⟨rfl, hav, by simp⟩ ih4
      · have h0' : fiz r = false := by simp [fiz, h0]
        have h1' : fiz av = false := by simp [fiz, h1]
        obtain ⟨hcs, hf1, hf2, hf3⟩ := step_facts sg r av hsg hr h0 hav h1
        rcases hsg with hs | hs <;> subst hs <;>
        · simp only [clear_loop, h0', h1', Bool.false_eq_true, if_false, hcs,
            neg_one_mul]
          obtain ⟨ih1, ih2, ih3, ih4⟩ := ih (r - get_amount_to_use r (-av))
            (b + -get_amount_to_use r (-av)) hf1 hatl
          refine ⟨?_, ?_, ?_, ?_⟩
          · rw [line_sum_cons]
            dsimp only
            rw [get_debit_credit_sub]
            omega
          · omega
          · omega
          · exact List.Forall₂.cons ⟨rfl, hf2, by omega⟩ ih4

theorem between_trans (sg : Int) {p q s : MoveLine × Int}
    (h1 : Between sg p q) (h2 : Between sg q s) : Between sg p s := by
  obtain ⟨e1, _, d1⟩ := h1
  obtain ⟨e2, b2, d2⟩ := h2
  refine ⟨e1.trans e2, b2, ?_⟩
  rw [mul_sub] at d1 d2 ⊢
  linarith

theorem forall₂_between_trans (sg : Int) :
    ∀ {a b c : List (MoveLine × Int)},
      List.Forall₂ (Between sg) a b → List.Forall₂ (Between sg) b c →
      List.Forall₂ (Between sg) a c := by
  intro a b c h1
  induction h1 generalizing c with
  | nil =>
    intro h2
    cases h2
    exact List.Forall₂.nil
  | cons hpq htl ih =>
    intro h2
    cases h2 with
    | cons hqr htl2 =>
      exact List.Forall₂.cons (between_trans sg hpq hqr) (ih htl2)

theorem forall₂_between_inv (sg : Int) :
    ∀ {a b : List (MoveLine × Int)}, List.Forall₂ (Between sg) a b →
      ∀ q ∈ b, 0 ≤ sg * q.2 := by
  intro a b h
  induction h with
  | nil => intro q hq; cases hq
  | cons hpq _ ih =>
    intro q hq
    rcases List.mem_cons.mp hq with h | h
    · subst h
      exact hpq.2.1
    · exact ih q h

theorem forall₂_imp_mem {α β : Type} {R S : α → β → Prop} :
    ∀ {xs : List α} {ys : List β}, List.Forall₂ R xs ys →
      (∀ x ∈ xs, ∀ y, R x y → S x y) → List.Forall₂ S xs ys := by
  intro xs ys hf
  induction hf with
  | nil => intro _; exact List.Forall₂.nil
  | cons hxy _ ih =>
    intro h
    exact List.Forall₂.cons (h _ (List.mem_cons_self _ _) _ hxy)
      (ih fun x hx y hR => h x (List.mem_cons_of_mem _ hx) y hR)

theorem process_move_line_between (w : Wizard) (sg : Int)
    (hsg : sg = 1 ∨ sg = -1) (ml : MoveLine) (avail : List (MoveLine × Int))
    (hr : sg * ml.amount_residual ≤ 0) (ha : ∀ p ∈ avail, 0 ≤ sg * p.2) :
    line_sum (process_move_line w ml avail).1 = 0
    ∧ List.Forall₂ (Between sg) avail (process_move_line w ml avail).2 := by
  obtain ⟨h1, _, _, h4⟩ :=
    clear_loop_inv w sg hsg avail ml.amount_residual 0 hr ha
  unfold process_move_line
  dsimp only
  split
  · exact ⟨by simp [line_sum], h4⟩
  · constructor
    · rw [line_sum_cons]
      dsimp only
      rw [get_debit_credit_sub]
      omega
    · exact h4

theorem process_move_lines_inv (w : Wizard) (sg : Int)
    (hsg : sg = 1 ∨ sg = -1) :
    ∀ (mls : List MoveLine) (avail : List (MoveLine × Int)),
      (∀ ml ∈ mls, sg * ml.amount_residual ≤ 0) →
      (∀ p ∈ avail, 0 ≤ sg * p.2) →
      line_sum (process_move_lines w mls avail).1 = 0
      ∧ List.Forall₂ (Between sg) avail (process_move_lines w mls avail).2 := by
  intro mls
  induction mls with
  | nil =>
    intro avail _ hinv
    refine ⟨by simp [process_move_lines, line_sum], ?_⟩
    exact List.forall₂_same.mpr (fun p hp => ⟨rfl, hinv p hp, by simp⟩)
  | cons ml mls ih =>
    intro avail hml hinv
    obtain ⟨p1, p2⟩ := process_move_line_between w sg hsg ml avail
      (hml ml (List.mem_cons_self _ _)) hinv
    obtain ⟨q1, q2⟩ := ih (process_move_line w ml avail).2
      (fun m hm => hml m (List.mem_cons_of_mem _ hm))
      (forall₂_between_inv sg p2)
    constructor
    · simp only [process_move_lines]
      rw [line_sum_append, p1, q1]
      omega
    · simp only [process_move_lines]
      exact forall₂_between_trans sg p2 q2

theorem core_inv (w : Wizard) (sg : Int) (hsg : sg = 1 ∨ sg = -1) :
    ∀ (groups : List SrcGroup) (avail : List (MoveLine × Int)),
      (∀ g ∈ groups, ∀ ml ∈ g.lines, sg * ml.amount_residual ≤ 0) →
      (∀ p ∈ avail, 0 ≤ sg * p.2) →
      (∀ mv ∈ (get_move_dict_vals_core w groups avail).1,
        line_sum mv.line_ids = 0)
      ∧ List.Forall₂ (Between sg) avail
          (get_move_dict_vals_core w groups avail).2 := by
  intro groups
  induction groups with
  | nil =>
    intro avail _ hinv
    refine ⟨by simp [get_move_dict_vals_core], ?_⟩
    exact List.forall₂_same.mpr (fun p hp => ⟨rfl, hinv p hp, by simp⟩)
  | cons g gs ih =>
    intro avail hg hinv
    obtain ⟨p1, p2⟩ := process_move_lines_inv w sg hsg g.lines avail
      (hg g (List.mem_cons_self _ _)) hinv
    obtain ⟨q1, q2⟩ := ih (process_move_lines w g.lines avail).2
      (fun g' hg' => hg g' (List.mem_cons_of_mem _ hg'))
      (forall₂_between_inv sg p2)
    constructor
    · intro mv hmv
      simp only [get_move_dict_vals_core] at hmv
      by_cases he : (process_move_lines w g.lines avail).1 = []
      · rw [if_pos he] at hmv
        exact q1 mv hmv
      · rw [if_neg he] at hmv
        rcases List.mem_cons.mp hmv with h | h
        · subst h
          exact p1
        · exact q1 mv h
    · simp only [get_move_dict_vals_core]
      split
      · exact forall₂_between_trans sg p2 q2
      · exact forall₂_between_trans sg p2 q2

/-- C1: in a valid allocation run, where all source residuals carry one
polarity and all requested clearing amounts the opposite one (recorded by the
sign `sg`), every journal entry emitted by `_get_move_dict_vals` is balanced:
the sum of the debit fields of its lines equals the sum of the credit fields
exactly. -/
theorem entries_balanced (w : Wizard) (sg : Int) (groups : List SrcGroup)
    (line_ids : List ClearLine) (hsg : sg = 1 ∨ sg = -1)
    (hsrc : ∀ g ∈ groups, ∀ ml ∈ g.lines, sg * ml.amount_residual ≤ 0)
    (hcand : ∀ l ∈ line_ids, 0 ≤ sg * l.amount_to_clear) :
    ∀ mv ∈ get_move_dict_vals w groups line_ids,
      sum_debit mv.line_ids = sum_credit mv.line_ids := by
  intro mv hmv
  have hinv : ∀ p ∈ (line_ids.filter (fun l => l.amount_to_clear != 0)).map
      (fun l => (l.move_line, l.amount_to_clear)), 0 ≤ sg * p.2 := by
    intro p hp
    simp only [List.mem_map, List.mem_filter] at hp
    obtain ⟨l, ⟨hl, _⟩, hpl⟩ := hp
    subst hpl
    exact hcand l hl
  obtain ⟨h1, _⟩ := core_inv w sg hsg groups _ hsrc hinv
  have h2 := h1 mv (by simpa [get_move_dict_vals] using hmv)
  have h3 := line_sum_eq_sub mv.line_ids
  omega

/-- Witness for C1: the run clearing the -100 document against the candidate
capped at 100 produces a balanced entry. -/
theorem entries_balanced_witness :
    sum_debit ((get_move_dict_vals w0c G1 L1).headD M0).line_ids
      = sum_credit ((get_move_dict_vals w0c G1 L1).headD M0).line_ids := by
  have h := entries_balanced w0c 1 G1 L1 (Or.inl rfl) (by decide) (by decide)
  exact h _ (by decide)

theorem abs_toward_zero (sg t f : Int) (hsg : sg = 1 ∨ sg = -1)
    (h1 : 0 ≤ sg * f) (h2 : 0 ≤ sg * (t - f)) : |t - f| ≤ |t| := by
  rcases hsg with hs | hs <;> subst hs <;>
    rw [Int.abs_eq_natAbs, Int.abs_eq_natAbs] <;> omega

/-- C4: in a valid allocation run (opposite polarities recorded by `sg`) with
`|requested_amount| ≤ |residual_amount|` on each candidate, no line is
over-consumed: for every source line, the magnitude of the total amount
transferred against it (its residual minus what the inner loop leaves of it)
is at most the magnitude of its residual, and for every clearing candidate
the magnitude of the total transferred against it over the whole run (its
requested amount minus its final availability) is at most the magnitude of
its residual_amount. -/
theorem no_over_consumption (w : Wizard) (sg : Int) (groups : List SrcGroup)
    (line_ids : List ClearLine) (hsg : sg = 1 ∨ sg = -1)
    (hsrc : ∀ g ∈ groups, ∀ ml ∈ g.lines, sg * ml.amount_residual ≤ 0)
    (hcand : ∀ l ∈ line_ids, 0 ≤ sg * l.amount_to_clear)
    (hreq : ∀ l ∈ line_ids,
      |l.amount_to_clear| ≤ |l.move_line.amount_residual|) :
    (∀ g ∈ groups, ∀ ml ∈ g.lines, ∀ avail : List (MoveLine × Int),
        (∀ p ∈ avail, 0 ≤ sg * p.2) →
        |ml.amount_residual - (clear_loop w ml.amount_residual 0 avail).ml_res|
          ≤ |ml.amount_residual|)
    ∧ List.Forall₂
        (fun (l : ClearLine) q => l.move_line = q.1
          ∧ |l.amount_to_clear - q.2| ≤ |l.move_line.amount_residual|)
        (line_ids.filter (fun l => l.amount_to_clear != 0))
        (get_move_dict_vals_core w groups
          ((line_ids.filter (fun l => l.amount_to_clear != 0)).map
            (fun l => (l.move_line, l.amount_to_clear)))).2 := by
  constructor
  · intro g hg ml hml avail hinv
    obtain ⟨_, h2, h3, _⟩ := clear_loop_inv w sg hsg avail ml.amount_residual
      0 (hsrc g hg ml hml) hinv
    rcases hsg with hs | hs <;> subst hs <;>
      rw [Int.abs_eq_natAbs, Int.abs_eq_natAbs] <;> omega
  · have hinv : ∀ p ∈ (line_ids.filter (fun l => l.amount_to_clear != 0)).map
        (fun l => (l.move_line, l.amount_to_clear)), 0 ≤ sg * p.2 := by
      intro p hp
      simp only [List.mem_map, List.mem_filter] at hp
      obtain ⟨l, ⟨hl, _⟩, hpl⟩ := hp
      subst hpl
      exact hcand l hl
    obtain ⟨_, h2⟩ := core_inv w sg hsg groups _ hsrc hinv
    rw [List.forall₂_map_left_iff] at h2
    refine forall₂_imp_mem h2 ?_
    intro l hl q hB
    obtain ⟨he, hb1, hb2⟩ := hB
    have hl' : l ∈ line_ids := (List.mem_filter.mp hl).1
    exact ⟨he, le_trans
      (abs_toward_zero sg l.amount_to_clear q.2 hsg hb1 hb2) (hreq l hl')⟩

/-- Witness for C4: the source line with residual -100 is consumed by at most
100 against the candidate capped at 100 with residual 150. -/
theorem no_over_consumption_witness :
    |srcAc.amount_residual
        - (clear_loop w0c srcAc.amount_residual 0 [(candAc, 100)]).ml_res|
      ≤ |srcAc.amount_residual| := by
  have h := no_over_consumption w0c 1 G1 L1 (Or.inl rfl) (by decide)
    (by decide) (by decide)
  exact h.1 ⟨"INV1", [srcAc]⟩ (by decide) srcAc (by decide)
    [(candAc, 100)] (by decide)

end InvoiceClearing
